import Mathlib

/-!
Verification of MaxConverter's line parser and fixed-width table formatter
(`maxconverter.py`).  Lines are modelled as `List Char`; Python dicts of
string keys are modelled as association lists.
-/

namespace MaxConverter

/-- Whitespace characters recognised by Python's `str.strip()` and the regex
class `\s` (ASCII subset). -/
def isSpaceChar (c : Char) : Bool :=
  c = ' ' || c = '\t' || c = '\n' || c = '\r' || c = '\x0b' || c = '\x0c'

/-- Remove leading whitespace, as in Python `str.lstrip()`. -/
def lstrip (s : List Char) : List Char :=
  s.dropWhile isSpaceChar

/-- Remove trailing whitespace, as in Python `str.rstrip()`. -/
def rstrip (s : List Char) : List Char :=
  (s.reverse.dropWhile isSpaceChar).reverse

/-- Python `str.strip()`: remove leading and trailing whitespace. -/
def pstrip (s : List Char) : List Char :=
  rstrip (lstrip s)

/-- Python `s.split(sep)` for a one-character separator: split at every
occurrence of `sep`, keeping empty fields. -/
def splitOnCharList (sep : Char) : List Char → List (List Char)
  | [] => [[]]
  | c :: rest =>
    if c = sep then [] :: splitOnCharList sep rest
    else
      match splitOnCharList sep rest with
      | t :: ts => (c :: t) :: ts
      | [] => [[c]]

/-- Python `re.split(r"\s+", s)`: split at every maximal run of whitespace;
an empty field appears at an end when the string starts or ends with
whitespace.  A whitespace character is skipped when more whitespace follows
(the run is still open); the last one of a run closes the field before it.
`headD` with a non-space default treats the end of input as a run boundary. -/
def wsSplit : List Char → List (List Char)
  | [] => [[]]
  | c :: rest =>
    if isSpaceChar c then
      if isSpaceChar (rest.headD 'a') then wsSplit rest
      else [] :: wsSplit rest
    else
      match wsSplit rest with
      | t :: ts => (c :: t) :: ts
      | [] => [[c]]

/-- Optional sign `[+-]?`: consume a leading `+` or `-` if present. -/
def matchSign : List Char → List Char × List Char
  | [] => ([], [])
  | c :: rest => if c = '+' || c = '-' then ([c], rest) else ([], c :: rest)

/-- Optional fractional part `(?:\.\d*)?`: a dot followed by a greedy run of
digits, or nothing. -/
def matchFrac : List Char → List Char × List Char
  | [] => ([], [])
  | c :: rest =>
    if c = '.' then ('.' :: rest.takeWhile Char.isDigit, rest.dropWhile Char.isDigit)
    else ([], c :: rest)

/-- Optional exponent `(?:[eE][+-]?\d+)?`: `e`/`E`, optional sign, then at
least one digit; otherwise nothing is consumed. -/
def matchExp (s : List Char) : List Char × List Char :=
  match s with
  | [] => ([], [])
  | c :: rest =>
    if c = 'e' || c = 'E' then
      let p := matchSign rest
      if p.2.takeWhile Char.isDigit = [] then ([], c :: rest)
      else (c :: (p.1 ++ p.2.takeWhile Char.isDigit), p.2.dropWhile Char.isDigit)
    else ([], c :: rest)

/-- The `\.\d+` alternative, applied to what follows the dot: at least one
digit must be present. -/
def matchDotBody (sg : List Char) : List Char → Option (List Char × List Char)
  | [] => none
  | d :: rest2 =>
    if Char.isDigit d then
      some (sg ++ '.' :: (d :: rest2).takeWhile Char.isDigit
              ++ (matchExp ((d :: rest2).dropWhile Char.isDigit)).1,
            (matchExp ((d :: rest2).dropWhile Char.isDigit)).2)
    else none

/-- Body of a float-token match once the optional sign `sg` has been taken:
`(?:\d+(?:\.\d*)?|\.\d+)(?:[eE][+-]?\d+)?` against the remainder.  Each piece
is greedy and the alternation prefers the digits-first branch, exactly as
Python's regex engine resolves this pattern (no inter-piece backtracking can
arise: after a digit run only `.`/`e`/`E` may follow). -/
def matchFloatBody (sg : List Char) : List Char → Option (List Char × List Char)
  | [] => none
  | c :: rest =>
    if Char.isDigit c then
      some (sg ++ (c :: rest).takeWhile Char.isDigit
              ++ (matchFrac ((c :: rest).dropWhile Char.isDigit)).1
              ++ (matchExp (matchFrac ((c :: rest).dropWhile Char.isDigit)).2).1,
            (matchExp (matchFrac ((c :: rest).dropWhile Char.isDigit)).2).2)
    else if c = '.' then matchDotBody sg rest
    else none

/-- One attempted match of `FLOAT_TOKEN = [+-]?(?:\d+(?:\.\d*)?|\.\d+)(?:[eE][+-]?\d+)?`
at the start of `s`; returns the matched text and the remainder. -/
def matchFloatAt (s : List Char) : Option (List Char × List Char) :=
  matchFloatBody (matchSign s).1 (matchSign s).2

/-- The scan of `re.findall`, with a structural fuel so that it reduces in
the kernel.  Every step consumes at least one character of the input
(`matchFloatAt_snd_lt`), so any fuel of at least the input length produces
the unbounded scan; `floatFindAllFuel_congr` proves the fuel irrelevant. -/
def floatFindAllFuel : Nat → List Char → List (List Char)
  | 0, _ => []
  | _ + 1, [] => []
  | fuel + 1, c :: rest =>
    match matchFloatAt (c :: rest) with
    | some (m, r) => m :: floatFindAllFuel fuel r
    | none => floatFindAllFuel fuel rest

/-- Python `float_re.findall(s)`: scan left to right, collecting
non-overlapping matches of the float-token pattern; on failure advance one
character. -/
def floatFindAll (s : List Char) : List (List Char) :=
  floatFindAllFuel s.length s

/-- A parsed row: the Python dict with string keys, as an association list. -/
abbrev Record := List (String × List Char)

/-- Lookup of a key in a record (first binding wins, as in a Python dict,
whose keys here are distinct anyway). -/
def rlookup (r : Record) (k : String) : Option (List Char) :=
  match r with
  | [] => none
  | (k2, v) :: rest => if k2 = k then some v else rlookup rest k

/-- Python `str(r.get(col, ""))`: the value of `col`, or the empty string
when the key is absent (`str` is the identity on these string values). -/
def rget (r : Record) (k : String) : List Char :=
  (rlookup r k).getD []

/-- `not s or s.startswith("#")` on the stripped line. -/
def isBlankOrComment (s : List Char) : Bool :=
  match s with
  | [] => true
  | c :: _ => c = '#'

/-- `parse_line_to_fields` from `maxconverter.py`: strip the line; drop
blank/comment lines; try a comma split with ≥ 5 fields, then a whitespace
split with ≥ 5 fields, then fall back to the first three float tokens. -/
def parse_line_to_fields (line : List Char) : Record :=
  let s := pstrip line
  if isBlankOrComment s then []
  else
    let cparts := splitOnCharList ',' s
    if 5 ≤ cparts.length then
      [("NAME", pstrip (cparts.getD 0 [])),
       ("HJD", pstrip (cparts.getD 1 [])),
       ("MAG", pstrip (cparts.getD 2 [])),
       ("MAG_ERR", pstrip (cparts.getD 3 [])),
       ("FILTER", pstrip (cparts.getD 4 []))]
    else
      let wparts := wsSplit s
      if 5 ≤ wparts.length then
        [("NAME", pstrip (wparts.getD 0 [])),
         ("HJD", pstrip (wparts.getD 1 [])),
         ("MAG", pstrip (wparts.getD 2 [])),
         ("MAG_ERR", pstrip (wparts.getD 3 [])),
         ("FILTER", pstrip (wparts.getD 4 []))]
      else
        let nums := floatFindAll s
        if 3 ≤ nums.length then
          [("NAME", []), ("HJD", nums.getD 0 []), ("MAG", nums.getD 1 []),
           ("MAG_ERR", nums.getD 2 []), ("FILTER", [])]
        else []

/-- Column width computed by `format_table`:
`max([len(str(r.get(col, ""))) for r in rows] + [len(col)]) + 3`. -/
def widthOf (rows : List Record) (col : String) : Nat :=
  (rows.map (fun r => (rget r col).length)).foldr max col.length + 3

/-- Python `str.ljust`: pad on the right with spaces up to width `w`
(no-op when the string is already at least that long). -/
def ljust (s : List Char) (w : Nat) : List Char :=
  s ++ List.replicate (w - s.length) ' '

/-- The header row of `format_table`:
`"".flatten(col.ljust(widths[col]) for col in selected_cols)`. -/
def headerLine (rows : List Record) (cols : List String) : List Char :=
  (cols.map (fun c => ljust c.toList (widthOf rows c))).flatten

/-- One data row of `format_table`:
`"".flatten(str(r.get(col, "")).ljust(widths[col]) for col in selected_cols)`. -/
def renderRow (rows : List Record) (cols : List String) (r : Record) : List Char :=
  (cols.map (fun c => ljust (rget r c) (widthOf rows c))).flatten

/-- `format_table(rows, selected_cols)`: header then one line per row,
joined with `"\n"`. -/
def format_table (rows : List Record) (cols : List String) : List Char :=
  List.intercalate ['\n'] (headerLine rows cols :: rows.map (renderRow rows cols))

/-- Offset of column `j` inside a formatted line: the sum of the widths of
the columns before it. -/
def colOffset (rows : List Record) (cols : List String) (j : Nat) : Nat :=
  ((cols.take j).map (widthOf rows)).sum

/-- The slice of a line at offset `off` of width `w`. -/
def sliceAt (line : List Char) (off w : Nat) : List Char :=
  (line.drop off).take w

/-! ### Helper lemmas -/

theorem length_dropWhile_under (p : Char → Bool) (l : List Char) :
    (l.dropWhile p).length ≤ l.length :=
  (List.dropWhile_sublist (l := l) p).length_le

theorem matchSign_snd_le (s : List Char) : (matchSign s).2.length ≤ s.length := by
  cases s with
  | nil => simp [matchSign]
  | cons c rest =>
    simp only [matchSign]
    split <;> simp

theorem matchFrac_snd_le (s : List Char) : (matchFrac s).2.length ≤ s.length := by
  cases s with
  | nil => simp [matchFrac]
  | cons c rest =>
    simp only [matchFrac]
    split
    · simpa using Nat.le_succ_of_le (length_dropWhile_under Char.isDigit rest)
    · simp

theorem matchExp_snd_le (s : List Char) : (matchExp s).2.length ≤ s.length := by
  cases s with
  | nil => simp [matchExp]
  | cons c rest =>
    simp only [matchExp]
    split
    · split
      · simp
      · simp only [List.length_cons]
        have h1 := matchSign_snd_le rest
        have h2 := length_dropWhile_under Char.isDigit (matchSign rest).2
        omega
    · simp

theorem matchDotBody_snd_lt (sg : List Char) (s : List Char) (m r : List Char)
    (h : matchDotBody sg s = some (m, r)) : r.length < s.length := by
  cases s with
  | nil => exact Option.noConfusion h
  | cons d rest2 =>
    simp only [matchDotBody] at h
    split at h
    · simp only [Option.some.injEq, Prod.mk.injEq] at h
      have h2 : ((d :: rest2).dropWhile Char.isDigit).length < (d :: rest2).length := by
        have hd : Char.isDigit d = true := by assumption
        simp only [List.dropWhile, hd, List.length_cons]
        exact Nat.lt_succ_of_le (length_dropWhile_under Char.isDigit rest2)
      have h3 := matchExp_snd_le ((d :: rest2).dropWhile Char.isDigit)
      rw [← h.2]
      simp only [List.length_cons] at h2 ⊢
      omega
    · exact Option.noConfusion h

theorem matchFloatBody_snd_lt (sg : List Char) (s : List Char) (m r : List Char)
    (h : matchFloatBody sg s = some (m, r)) : r.length < s.length := by
  cases s with
  | nil => exact Option.noConfusion h
  | cons c rest =>
    simp only [matchFloatBody] at h
    split at h
    · simp only [Option.some.injEq, Prod.mk.injEq] at h
      have h3 := matchFrac_snd_le ((c :: rest).dropWhile Char.isDigit)
      have h4 := matchExp_snd_le (matchFrac ((c :: rest).dropWhile Char.isDigit)).2
      have h5 : ((c :: rest).dropWhile Char.isDigit).length < (c :: rest).length := by
        have hd : Char.isDigit c = true := by assumption
        simp only [List.dropWhile, hd, List.length_cons]
        exact Nat.lt_succ_of_le (length_dropWhile_under Char.isDigit rest)
      rw [← h.2]
      simp only [List.length_cons] at h5 ⊢
      omega
    · split at h
      · exact Nat.lt_succ_of_lt (matchDotBody_snd_lt sg rest m r h)
      · exact Option.noConfusion h

theorem matchFloatAt_snd_lt (s : List Char) (m r : List Char)
    (h : matchFloatAt s = some (m, r)) : r.length < s.length :=
  Nat.lt_of_lt_of_le (matchFloatBody_snd_lt _ _ _ _ h) (matchSign_snd_le s)

theorem floatFindAllFuel_congr (fuel1 : Nat) :
    ∀ (fuel2 : Nat) (s : List Char), s.length ≤ fuel1 → s.length ≤ fuel2 →
      floatFindAllFuel fuel1 s = floatFindAllFuel fuel2 s := by
  induction fuel1 with
  | zero =>
    intro fuel2 s h1 _
    have hs : s = [] := List.eq_nil_of_length_eq_zero (Nat.le_zero.mp h1)
    subst hs
    cases fuel2 <;> rfl
  | succ f1 ih =>
    intro fuel2 s h1 h2
    cases s with
    | nil => cases fuel2 <;> rfl
    | cons c rest =>
      cases fuel2 with
      | zero => exact absurd h2 (by simp)
      | succ f2 =>
        simp only [floatFindAllFuel]
        cases hm : matchFloatAt (c :: rest) with
        | some p =>
          obtain ⟨m, r⟩ := p
          have hlt := matchFloatAt_snd_lt (c :: rest) m r hm
          simp only [List.length_cons] at h1 h2 hlt
          show m :: floatFindAllFuel f1 r = m :: floatFindAllFuel f2 r
          rw [ih f2 r (by omega) (by omega)]
        | none =>
          simp only [List.length_cons] at h1 h2
          show floatFindAllFuel f1 rest = floatFindAllFuel f2 rest
          rw [ih f2 rest (by omega) (by omega)]

theorem lstrip_of_no_space (t : List Char) (h : ∀ c ∈ t, isSpaceChar c = false) :
    lstrip t = t := by
  cases t with
  | nil => rfl
  | cons c r => simp [lstrip, List.dropWhile_cons, h c (List.mem_cons_self c r)]

theorem rstrip_of_no_space (t : List Char) (h : ∀ c ∈ t, isSpaceChar c = false) :
    rstrip t = t := by
  have h2 : t.reverse.dropWhile isSpaceChar = t.reverse := by
    cases hr : t.reverse with
    | nil => rfl
    | cons c r =>
      have hc : c ∈ t := List.mem_reverse.mp (by rw [hr]; exact List.mem_cons_self c r)
      simp [List.dropWhile_cons, h c hc]
  simp [rstrip, h2]

theorem pstrip_of_no_space (t : List Char) (h : ∀ c ∈ t, isSpaceChar c = false) :
    pstrip t = t := by
  unfold pstrip
  rw [lstrip_of_no_space t h, rstrip_of_no_space t h]

theorem wsSplit_no_space (s : List Char) :
    ∀ t ∈ wsSplit s, ∀ c ∈ t, isSpaceChar c = false := by
  induction s with
  | nil =>
    intro t ht c hc
    simp only [wsSplit, List.mem_singleton] at ht
    subst ht
    simp at hc
  | cons a rest ih =>
    intro t ht c hc
    by_cases ha : isSpaceChar a = true
    · by_cases h2 : isSpaceChar (rest.headD 'a') = true
      · unfold wsSplit at ht
        rw [if_pos ha, if_pos h2] at ht
        exact ih t ht c hc
      · unfold wsSplit at ht
        rw [if_pos ha, if_neg h2] at ht
        rcases List.mem_cons.mp ht with ht | ht
        · subst ht; simp at hc
        · exact ih t ht c hc
    · unfold wsSplit at ht
      rw [if_neg ha] at ht
      cases hw : wsSplit rest with
      | nil =>
        rw [hw] at ht
        simp only [List.mem_singleton] at ht
        subst ht
        have hcq := List.mem_singleton.mp hc
        subst hcq
        simpa using ha
      | cons t0 ts =>
        rw [hw] at ht
        simp only [List.mem_cons] at ht
        rcases ht with ht | ht
        · subst ht
          rcases List.mem_cons.mp hc with hcq | hc2
          · subst hcq; simpa using ha
          · exact ih t0 (by rw [hw]; exact List.mem_cons_self t0 ts) c hc2
        · exact ih t (by rw [hw]; exact List.mem_cons.mpr (Or.inr ht)) c hc

theorem getD_mem_of_lt (l : List (List Char)) (i : Nat) (h : i < l.length) :
    l.getD i [] ∈ l := by
  rw [List.getD_eq_getElem l [] h]
  exact List.getElem_mem h

theorem lstrip_idem (t : List Char) : lstrip (lstrip t) = lstrip t :=
  List.dropWhile_idempotent isSpaceChar t

theorem rstrip_idem (t : List Char) : rstrip (rstrip t) = rstrip t := by
  simp [rstrip, List.dropWhile_idempotent]

theorem lstrip_rstrip_of_lstripped (t : List Char) (h : lstrip t = t) :
    lstrip (rstrip t) = rstrip t := by
  cases t with
  | nil => rfl
  | cons c r =>
    have hc : isSpaceChar c = false := by
      by_cases hcs : isSpaceChar c = true
      · exfalso
        have h2 : lstrip r = c :: r := by
          rw [← h]
          simp [lstrip, List.dropWhile_cons, hcs]
        have := length_dropWhile_under isSpaceChar r
        rw [show lstrip r = List.dropWhile isSpaceChar r from rfl] at h2
        rw [h2] at this
        simp at this
      · simpa using hcs
    unfold rstrip
    rw [List.reverse_cons, List.dropWhile_append]
    by_cases he : (List.dropWhile isSpaceChar r.reverse).isEmpty = true
    · rw [if_pos he]
      simp [List.dropWhile_cons, hc, lstrip]
    · rw [if_neg (by simpa using he), List.reverse_append]
      simp [lstrip, List.dropWhile_cons, hc]

theorem lstrip_pstrip (x : List Char) : lstrip (pstrip x) = pstrip x :=
  lstrip_rstrip_of_lstripped (lstrip x) (lstrip_idem x)

theorem rstrip_pstrip (x : List Char) : rstrip (pstrip x) = pstrip x :=
  rstrip_idem (lstrip x)

theorem isDigit_not_space (c : Char) (h : Char.isDigit c = true) :
    isSpaceChar c = false := by
  by_cases hs : isSpaceChar c = true
  · exfalso
    simp only [isSpaceChar, Bool.or_eq_true, decide_eq_true_eq] at hs
    rcases hs with ((((h1 | h1) | h1) | h1) | h1) | h1 <;> subst h1 <;> simp at h
  · simpa using hs

theorem matchSign_fst_no_space (s : List Char) :
    ∀ c ∈ (matchSign s).1, isSpaceChar c = false := by
  cases s with
  | nil => simp [matchSign]
  | cons a rest =>
    simp only [matchSign]
    split
    · intro c hc
      have hca := List.mem_singleton.mp hc
      subst hca
      rename_i hsgn
      rcases Bool.or_eq_true_iff.mp hsgn with h1 | h1 <;>
        rw [decide_eq_true_eq] at h1 <;> subst h1 <;> decide
    · simp

theorem matchFrac_fst_no_space (s : List Char) :
    ∀ c ∈ (matchFrac s).1, isSpaceChar c = false := by
  cases s with
  | nil => simp [matchFrac]
  | cons a rest =>
    simp only [matchFrac]
    split
    · intro c hc
      rcases List.mem_cons.mp hc with h1 | h1
      · subst h1; decide
      · exact isDigit_not_space c (List.mem_takeWhile_imp h1)
    · simp

theorem matchExp_fst_no_space (s : List Char) :
    ∀ c ∈ (matchExp s).1, isSpaceChar c = false := by
  cases s with
  | nil => simp [matchExp]
  | cons a rest =>
    by_cases ha : (a = 'e' || a = 'E') = true
    · by_cases hne : List.takeWhile Char.isDigit (matchSign rest).2 = []
      · simp [matchExp, ha, hne]
      · simp only [matchExp, if_pos ha, if_neg hne]
        intro c hc
        rcases List.mem_cons.mp hc with h1 | h1
        · subst h1
          rcases Bool.or_eq_true_iff.mp ha with h2 | h2 <;>
            rw [decide_eq_true_eq] at h2 <;> subst h2 <;> decide
        · rcases List.mem_append.mp h1 with h2 | h2
          · exact matchSign_fst_no_space rest c h2
          · exact isDigit_not_space c (List.mem_takeWhile_imp h2)
    · simp [matchExp, ha]

theorem matchDotBody_fst_no_space (sg : List Char) (s : List Char) (m r : List Char)
    (hsg : ∀ c ∈ sg, isSpaceChar c = false)
    (h : matchDotBody sg s = some (m, r)) :
    ∀ c ∈ m, isSpaceChar c = false := by
  cases s with
  | nil => exact Option.noConfusion h
  | cons d rest2 =>
    simp only [matchDotBody] at h
    split at h
    · simp only [Option.some.injEq, Prod.mk.injEq] at h
      intro c hc
      rw [← h.1] at hc
      rcases List.mem_append.mp hc with h1 | h1
      · rcases List.mem_append.mp h1 with h2 | h2
        · exact hsg c h2
        · rcases List.mem_cons.mp h2 with h3 | h3
          · subst h3; decide
          · exact isDigit_not_space c (List.mem_takeWhile_imp h3)
      · exact matchExp_fst_no_space _ c h1
    · exact Option.noConfusion h

theorem matchFloatBody_fst_no_space (sg : List Char) (s : List Char) (m r : List Char)
    (hsg : ∀ c ∈ sg, isSpaceChar c = false)
    (h : matchFloatBody sg s = some (m, r)) :
    ∀ c ∈ m, isSpaceChar c = false := by
  cases s with
  | nil => exact Option.noConfusion h
  | cons a rest =>
    simp only [matchFloatBody] at h
    split at h
    · simp only [Option.some.injEq, Prod.mk.injEq] at h
      intro c hc
      rw [← h.1] at hc
      rcases List.mem_append.mp hc with h1 | h1
      · rcases List.mem_append.mp h1 with h2 | h2
        · rcases List.mem_append.mp h2 with h3 | h3
          · exact hsg c h3
          · exact isDigit_not_space c (List.mem_takeWhile_imp h3)
        · exact matchFrac_fst_no_space _ c h2
      · exact matchExp_fst_no_space _ c h1
    · split at h
      · exact matchDotBody_fst_no_space sg rest m r hsg h
      · exact Option.noConfusion h

theorem matchFloatAt_no_space (s : List Char) (m r : List Char)
    (h : matchFloatAt s = some (m, r)) :
    ∀ c ∈ m, isSpaceChar c = false :=
  matchFloatBody_fst_no_space _ _ m r (matchSign_fst_no_space s) h

theorem floatFindAllFuel_no_space (fuel : Nat) :
    ∀ (s : List Char), ∀ m ∈ floatFindAllFuel fuel s, ∀ c ∈ m, isSpaceChar c = false := by
  induction fuel with
  | zero => intro s m hm; simp [floatFindAllFuel] at hm
  | succ f ih =>
    intro s m hm
    cases s with
    | nil => simp [floatFindAllFuel] at hm
    | cons a rest =>
      simp only [floatFindAllFuel] at hm
      cases hq : matchFloatAt (a :: rest) with
      | some p =>
        obtain ⟨m0, r⟩ := p
        rw [hq] at hm
        rcases List.mem_cons.mp hm with h1 | h1
        · subst h1
          exact matchFloatAt_no_space (a :: rest) m r hq
        · exact ih r m h1
      | none =>
        rw [hq] at hm
        exact ih rest m hm

theorem floatFindAll_no_space (s : List Char) :
    ∀ m ∈ floatFindAll s, ∀ c ∈ m, isSpaceChar c = false :=
  floatFindAllFuel_no_space s.length s

/-! ### Claims about the parser -/

/-- C1: for every input line whose comma-split (after trimming the whole
line) yields at least 5 parts, and which is neither blank nor a comment,
`parse_line_to_fields` maps NAME, HJD, MAG, MAG_ERR, FILTER to parts 0–4,
each trimmed, ignoring any further parts. -/
theorem parse_csv_branch_spec (line : List Char)
    (h1 : isBlankOrComment (pstrip line) = false)
    (h2 : 5 ≤ (splitOnCharList ',' (pstrip line)).length) :
    parse_line_to_fields line =
      [("NAME", pstrip ((splitOnCharList ',' (pstrip line)).getD 0 [])),
       ("HJD", pstrip ((splitOnCharList ',' (pstrip line)).getD 1 [])),
       ("MAG", pstrip ((splitOnCharList ',' (pstrip line)).getD 2 [])),
       ("MAG_ERR", pstrip ((splitOnCharList ',' (pstrip line)).getD 3 [])),
       ("FILTER", pstrip ((splitOnCharList ',' (pstrip line)).getD 4 []))] := by
  simp [parse_line_to_fields, h1, h2]

theorem parse_csv_branch_spec_witness :
    isBlankOrComment (pstrip "V523 Cas, 2455197.5 ,12.34,0.01, V ,junk,junk2".toList) = false ∧
    5 ≤ (splitOnCharList ',' (pstrip "V523 Cas, 2455197.5 ,12.34,0.01, V ,junk,junk2".toList)).length ∧
    parse_line_to_fields "V523 Cas, 2455197.5 ,12.34,0.01, V ,junk,junk2".toList =
      [("NAME", "V523 Cas".toList), ("HJD", "2455197.5".toList), ("MAG", "12.34".toList),
       ("MAG_ERR", "0.01".toList), ("FILTER", "V".toList)] :=
  ⟨by decide, by decide,
   (parse_csv_branch_spec "V523 Cas, 2455197.5 ,12.34,0.01, V ,junk,junk2".toList
     (by decide) (by decide)).trans (by decide)⟩

/-- C2: when the comma-split of the trimmed line has fewer than 5 parts but
the whitespace-split has at least 5 tokens, `parse_line_to_fields` maps
NAME, HJD, MAG, MAG_ERR, FILTER positionally to tokens 0–4 (which carry no
whitespace, so trimming them is the identity), ignoring extra tokens. -/
theorem parse_ws_branch_spec (line : List Char)
    (h1 : isBlankOrComment (pstrip line) = false)
    (h2 : (splitOnCharList ',' (pstrip line)).length < 5)
    (h3 : 5 ≤ (wsSplit (pstrip line)).length) :
    parse_line_to_fields line =
      [("NAME", (wsSplit (pstrip line)).getD 0 []),
       ("HJD", (wsSplit (pstrip line)).getD 1 []),
       ("MAG", (wsSplit (pstrip line)).getD 2 []),
       ("MAG_ERR", (wsSplit (pstrip line)).getD 3 []),
       ("FILTER", (wsSplit (pstrip line)).getD 4 [])] := by
  have hs : ∀ i, i < 5 → pstrip ((wsSplit (pstrip line)).getD i []) =
      (wsSplit (pstrip line)).getD i [] := by
    intro i hi
    exact pstrip_of_no_space _
      (wsSplit_no_space (pstrip line) _ (getD_mem_of_lt _ i (by omega)))
  simp only [parse_line_to_fields, h1, Bool.false_eq_true, if_false,
    if_neg (by omega : ¬ 5 ≤ (splitOnCharList ',' (pstrip line)).length), if_pos h3,
    hs 0 (by omega), hs 1 (by omega), hs 2 (by omega), hs 3 (by omega), hs 4 (by omega)]

theorem parse_ws_branch_spec_witness :
    isBlankOrComment (pstrip "V523Cas 2455197.5\t12.34 0.01 V junk".toList) = false ∧
    (splitOnCharList ',' (pstrip "V523Cas 2455197.5\t12.34 0.01 V junk".toList)).length < 5 ∧
    5 ≤ (wsSplit (pstrip "V523Cas 2455197.5\t12.34 0.01 V junk".toList)).length ∧
    parse_line_to_fields "V523Cas 2455197.5\t12.34 0.01 V junk".toList =
      [("NAME", "V523Cas".toList), ("HJD", "2455197.5".toList), ("MAG", "12.34".toList),
       ("MAG_ERR", "0.01".toList), ("FILTER", "V".toList)] :=
  ⟨by decide, by decide, by decide,
   (parse_ws_branch_spec "V523Cas 2455197.5\t12.34 0.01 V junk".toList
     (by decide) (by decide) (by decide)).trans (by decide)⟩

/-- C3: when both the comma-split and the whitespace-split of the trimmed
line have fewer than 5 parts and the line contains at least 3 float tokens,
`parse_line_to_fields` returns NAME = "", HJD/MAG/MAG_ERR = the first three
matched tokens verbatim, FILTER = "", ignoring further tokens. -/
theorem parse_float_branch_spec (line : List Char)
    (h1 : isBlankOrComment (pstrip line) = false)
    (h2 : (splitOnCharList ',' (pstrip line)).length < 5)
    (h3 : (wsSplit (pstrip line)).length < 5)
    (h4 : 3 ≤ (floatFindAll (pstrip line)).length) :
    parse_line_to_fields line =
      [("NAME", []),
       ("HJD", (floatFindAll (pstrip line)).getD 0 []),
       ("MAG", (floatFindAll (pstrip line)).getD 1 []),
       ("MAG_ERR", (floatFindAll (pstrip line)).getD 2 []),
       ("FILTER", [])] := by
  simp only [parse_line_to_fields, h1, Bool.false_eq_true, if_false,
    if_neg (by omega : ¬ 5 ≤ (splitOnCharList ',' (pstrip line)).length),
    if_neg (by omega : ¬ 5 ≤ (wsSplit (pstrip line)).length), if_pos h4]

theorem parse_float_branch_spec_witness :
    isBlankOrComment (pstrip "hjd2455197.5 mag12.34err0.012extra99".toList) = false ∧
    (splitOnCharList ',' (pstrip "hjd2455197.5 mag12.34err0.012extra99".toList)).length < 5 ∧
    (wsSplit (pstrip "hjd2455197.5 mag12.34err0.012extra99".toList)).length < 5 ∧
    3 ≤ (floatFindAll (pstrip "hjd2455197.5 mag12.34err0.012extra99".toList)).length ∧
    parse_line_to_fields "hjd2455197.5 mag12.34err0.012extra99".toList =
      [("NAME", []), ("HJD", "2455197.5".toList), ("MAG", "12.34".toList),
       ("MAG_ERR", "0.012".toList), ("FILTER", [])] :=
  ⟨by decide, by decide, by decide, by decide,
   (parse_float_branch_spec "hjd2455197.5 mag12.34err0.012extra99".toList
     (by decide) (by decide) (by decide) (by decide)).trans (by decide)⟩

/-- C4: a line that is empty, all whitespace, or whose first non-whitespace
character is `#`, parses to the empty record. -/
theorem parse_blank_comment_spec (line : List Char)
    (h : pstrip line = [] ∨ ∃ t, pstrip line = '#' :: t) :
    parse_line_to_fields line = [] := by
  have hb : isBlankOrComment (pstrip line) = true := by
    rcases h with h | ⟨t, h⟩ <;> rw [h] <;> simp [isBlankOrComment]
  simp [parse_line_to_fields, hb]

theorem parse_blank_comment_spec_witness :
    (pstrip "  # HJD MAG MAG_ERR".toList = [] ∨
      ∃ t, pstrip "  # HJD MAG MAG_ERR".toList = '#' :: t) ∧
    parse_line_to_fields "  # HJD MAG MAG_ERR".toList = [] ∧
    parse_line_to_fields "   ".toList = [] :=
  ⟨Or.inr ⟨" HJD MAG MAG_ERR".toList, by decide⟩,
   parse_blank_comment_spec "  # HJD MAG MAG_ERR".toList
     (Or.inr ⟨" HJD MAG MAG_ERR".toList, by decide⟩),
   parse_blank_comment_spec "   ".toList (Or.inl (by decide))⟩

/-- C8: every non-empty record produced by the parser binds the keys HJD,
MAG and MAG_ERR. -/
theorem parse_core_keys_spec (line : List Char)
    (h : parse_line_to_fields line ≠ []) :
    (rlookup (parse_line_to_fields line) "HJD").isSome = true ∧
    (rlookup (parse_line_to_fields line) "MAG").isSome = true ∧
    (rlookup (parse_line_to_fields line) "MAG_ERR").isSome = true := by
  by_cases hb : isBlankOrComment (pstrip line) = true
  · exact absurd (by simp [parse_line_to_fields, hb]) h
  · by_cases hc : 5 ≤ (splitOnCharList ',' (pstrip line)).length
    · simp [parse_line_to_fields, hb, hc, rlookup]
    · by_cases hw : 5 ≤ (wsSplit (pstrip line)).length
      · simp [parse_line_to_fields, hb, hc, hw, rlookup]
      · by_cases hf : 3 ≤ (floatFindAll (pstrip line)).length
        · simp [parse_line_to_fields, hb, hc, hw, hf, rlookup]
        · exact absurd (by simp [parse_line_to_fields, hb, hc, hw, hf]) h

theorem parse_core_keys_spec_witness :
    parse_line_to_fields "2455197.5 12.34 0.012".toList ≠ [] ∧
    (rlookup (parse_line_to_fields "2455197.5 12.34 0.012".toList) "HJD").isSome = true ∧
    (rlookup (parse_line_to_fields "2455197.5 12.34 0.012".toList) "MAG").isSome = true ∧
    (rlookup (parse_line_to_fields "2455197.5 12.34 0.012".toList) "MAG_ERR").isSome = true :=
  ⟨by decide,
   (parse_core_keys_spec "2455197.5 12.34 0.012".toList (by decide)).1,
   (parse_core_keys_spec "2455197.5 12.34 0.012".toList (by decide)).2.1,
   (parse_core_keys_spec "2455197.5 12.34 0.012".toList (by decide)).2.2⟩

/-- C10: every value in a record produced by the parser carries no leading
and no trailing whitespace: the comma/whitespace branches strip each field,
and fallback float tokens cannot contain whitespace. -/
theorem parse_values_stripped_spec (line : List Char) (p : String × List Char)
    (hp : p ∈ parse_line_to_fields line) :
    lstrip p.2 = p.2 ∧ rstrip p.2 = p.2 := by
  by_cases hb : isBlankOrComment (pstrip line) = true
  · simp [parse_line_to_fields, hb] at hp
  · by_cases hc : 5 ≤ (splitOnCharList ',' (pstrip line)).length
    · simp only [parse_line_to_fields, hb, Bool.false_eq_true, if_false, if_pos hc,
        List.mem_cons, List.not_mem_nil, or_false] at hp
      rcases hp with h | h | h | h | h <;> subst h <;>
        exact ⟨lstrip_pstrip _, rstrip_pstrip _⟩
    · by_cases hw : 5 ≤ (wsSplit (pstrip line)).length
      · simp only [parse_line_to_fields, hb, Bool.false_eq_true, if_false, if_neg hc,
          if_pos hw, List.mem_cons, List.not_mem_nil, or_false] at hp
        rcases hp with h | h | h | h | h <;> subst h <;>
          exact ⟨lstrip_pstrip _, rstrip_pstrip _⟩
      · by_cases hf : 3 ≤ (floatFindAll (pstrip line)).length
        · simp only [parse_line_to_fields, hb, Bool.false_eq_true, if_false, if_neg hc,
            if_neg hw, if_pos hf, List.mem_cons, List.not_mem_nil, or_false] at hp
          have hnum : ∀ i, i < 3 →
              (∀ c ∈ (floatFindAll (pstrip line)).getD i [], isSpaceChar c = false) := by
            intro i hi
            exact floatFindAll_no_space (pstrip line) _ (getD_mem_of_lt _ i (by omega))
          rcases hp with h | h | h | h | h <;> subst h
          · exact ⟨rfl, rfl⟩
          · exact ⟨lstrip_of_no_space _ (hnum 0 (by omega)),
              rstrip_of_no_space _ (hnum 0 (by omega))⟩
          · exact ⟨lstrip_of_no_space _ (hnum 1 (by omega)),
              rstrip_of_no_space _ (hnum 1 (by omega))⟩
          · exact ⟨lstrip_of_no_space _ (hnum 2 (by omega)),
              rstrip_of_no_space _ (hnum 2 (by omega))⟩
          · exact ⟨rfl, rfl⟩
        · simp [parse_line_to_fields, hb, hc, hw, hf] at hp

theorem parse_values_stripped_spec_witness :
    (("HJD", "2455197.5".toList) : String × List Char) ∈
      parse_line_to_fields "V523 Cas,2455197.5,12.34,0.01,V".toList ∧
    lstrip ("HJD", "2455197.5".toList).2 = ("HJD", "2455197.5".toList).2 ∧
    rstrip ("HJD", "2455197.5".toList).2 = ("HJD", "2455197.5".toList).2 :=
  ⟨by decide,
   (parse_values_stripped_spec "V523 Cas,2455197.5,12.34,0.01,V".toList
     ("HJD", "2455197.5".toList) (by decide)).1,
   (parse_values_stripped_spec "V523 Cas,2455197.5,12.34,0.01,V".toList
     ("HJD", "2455197.5".toList) (by decide)).2⟩

/-! ### Helper lemmas for the formatter -/

theorem le_foldr_max_init (b : Nat) (l : List Nat) : b ≤ l.foldr max b := by
  induction l with
  | nil => exact le_refl b
  | cons a t ih => exact le_trans ih (Nat.le_max_right a _)

theorem le_foldr_max_mem (a b : Nat) (l : List Nat) (h : a ∈ l) : a ≤ l.foldr max b := by
  induction l with
  | nil => simp at h
  | cons x t ih =>
    rcases List.mem_cons.mp h with h1 | h1
    · subst h1; exact Nat.le_max_left _ _
    · exact le_trans (ih h1) (Nat.le_max_right x _)

theorem foldr_max_cases (b : Nat) (l : List Nat) : l.foldr max b = b ∨ l.foldr max b ∈ l := by
  induction l with
  | nil => exact Or.inl rfl
  | cons x t ih =>
    rcases Nat.le_total x (t.foldr max b) with h | h
    · rw [List.foldr_cons, Nat.max_eq_right h]
      rcases ih with h1 | h1
      · exact Or.inl h1
      · exact Or.inr (List.mem_cons.mpr (Or.inr h1))
    · rw [List.foldr_cons, Nat.max_eq_left h]
      exact Or.inr (List.mem_cons_self x t)

theorem intercalate_cons_cons (sep a b : List Char) (t : List (List Char)) :
    List.intercalate sep (a :: b :: t) = a ++ sep ++ List.intercalate sep (b :: t) := by
  simp [List.intercalate, List.intersperse]

theorem intercalate_empties (n : Nat) :
    List.intercalate ['\n'] (List.replicate (n + 1) ([] : List Char)) =
      List.replicate n '\n' := by
  induction n with
  | zero => rfl
  | succ k ih =>
    rw [List.replicate_succ, List.replicate_succ ([] : List Char) k,
      intercalate_cons_cons, ← List.replicate_succ ([] : List Char) k, ih,
      List.replicate_succ]
    rfl

/-! ### Claims about the formatter -/

/-- C5: the computed width of a column is the maximum of the rendered value
lengths and the column-name length, plus 3; for an empty record list it is
the column-name length plus 3. -/
theorem format_width_spec (rows : List Record) (col : String) :
    (∀ r ∈ rows, (rget r col).length + 3 ≤ widthOf rows col) ∧
    col.length + 3 ≤ widthOf rows col ∧
    (widthOf rows col = col.length + 3 ∨
      ∃ r ∈ rows, widthOf rows col = (rget r col).length + 3) ∧
    (rows = [] → widthOf rows col = col.length + 3) := by
  refine ⟨?_, ?_, ?_, ?_⟩
  · intro r hr
    have h1 : (rget r col).length ∈ rows.map (fun r => (rget r col).length) :=
      List.mem_map_of_mem _ hr
    have h2 := le_foldr_max_mem _ col.length _ h1
    unfold widthOf
    omega
  · have h2 := le_foldr_max_init col.length (rows.map (fun r => (rget r col).length))
    unfold widthOf
    omega
  · rcases foldr_max_cases col.length (rows.map (fun r => (rget r col).length)) with h | h
    · left
      unfold widthOf
      omega
    · right
      rcases List.mem_map.mp h with ⟨r, hr, hv⟩
      refine ⟨r, hr, ?_⟩
      unfold widthOf
      omega
  · intro h
    subst h
    unfold widthOf
    simp

theorem format_width_spec_witness :
    (rget [("MAG", "12.34".toList)] "MAG").length + 3 ≤
      widthOf [[("MAG", "12.34".toList)]] "MAG" ∧
    widthOf [[("MAG", "12.34".toList)]] "MAG" = 8 :=
  ⟨(format_width_spec [[("MAG", "12.34".toList)]] "MAG").1
     [("MAG", "12.34".toList)] (by decide),
   by decide⟩

/-- C9: the formatter is total, and with an empty column list it degenerates
to one empty line per record: the output is exactly one newline character
per record. -/
theorem format_empty_cols_spec (rows : List Record) :
    format_table rows [] = List.replicate rows.length '\n' := by
  show List.intercalate ['\n'] (headerLine rows [] :: rows.map (renderRow rows [])) = _
  have h1 : headerLine rows [] = [] := rfl
  have h2 : rows.map (renderRow rows []) = List.replicate rows.length [] := by
    rw [show renderRow rows [] = fun _ => [] from rfl]
    exact List.map_const' rows []
  rw [h1, h2, show ([] : List Char) :: List.replicate rows.length [] =
    List.replicate (rows.length + 1) [] from (List.replicate_succ _ _).symm]
  exact intercalate_empties rows.length

theorem splitOnCharList_no_sep (sep : Char) (p : List Char) (h : sep ∉ p) :
    splitOnCharList sep p = [p] := by
  induction p with
  | nil => rfl
  | cons c r ih =>
    have hcs : ¬ c = sep := fun he => h (he ▸ List.mem_cons_self c r)
    unfold splitOnCharList
    rw [if_neg hcs, ih (fun hm => h (List.mem_cons.mpr (Or.inr hm)))]

theorem splitOnCharList_append_sep (sep : Char) (p t : List Char) (h : sep ∉ p) :
    splitOnCharList sep (p ++ sep :: t) = p :: splitOnCharList sep t := by
  induction p with
  | nil =>
    rw [List.nil_append]
    conv_lhs => unfold splitOnCharList
    rw [if_pos rfl]
  | cons c r ih =>
    have hcs : ¬ c = sep := fun he => h (he ▸ List.mem_cons_self c r)
    show splitOnCharList sep (c :: (r ++ sep :: t)) = (c :: r) :: splitOnCharList sep t
    conv_lhs => unfold splitOnCharList
    rw [if_neg hcs, ih (fun hm => h (List.mem_cons.mpr (Or.inr hm)))]

theorem splitOnCharList_intercalate (sep : Char) (parts : List (List Char))
    (hne : parts ≠ []) (h : ∀ p ∈ parts, sep ∉ p) :
    splitOnCharList sep (List.intercalate [sep] parts) = parts := by
  induction parts with
  | nil => exact absurd rfl hne
  | cons p rest ih =>
    cases rest with
    | nil =>
      rw [show List.intercalate [sep] [p] = p by simp [List.intercalate]]
      exact splitOnCharList_no_sep sep p (h p (List.mem_cons_self _ _))
    | cons q rest2 =>
      rw [intercalate_cons_cons [sep] p q rest2, List.append_assoc, List.singleton_append,
        splitOnCharList_append_sep sep p _ (h p (List.mem_cons_self _ _)),
        ih (by simp) (fun x hx => h x (List.mem_cons.mpr (Or.inr hx)))]

theorem not_mem_ljust (x : Char) (s : List Char) (w : Nat)
    (hx : x ∉ s) (hsp : ¬ x = ' ') : x ∉ ljust s w := by
  intro hm
  rcases List.mem_append.mp hm with h1 | h1
  · exact hx h1
  · exact hsp (List.eq_of_mem_replicate h1)

theorem newline_not_mem_headerLine (rows : List Record) (cols : List String)
    (h : ∀ cl ∈ cols, '\n' ∉ cl.toList) : '\n' ∉ headerLine rows cols := by
  intro hm
  rcases List.mem_flatten.mp hm with ⟨piece, hp, hcm⟩
  rcases List.mem_map.mp hp with ⟨cl, hcl, hpe⟩
  subst hpe
  exact not_mem_ljust '\n' cl.toList _ (h cl hcl) (by decide) hcm

theorem newline_not_mem_renderRow (rows : List Record) (cols : List String) (r : Record)
    (h : ∀ cl ∈ cols, '\n' ∉ rget r cl) : '\n' ∉ renderRow rows cols r := by
  intro hm
  rcases List.mem_flatten.mp hm with ⟨piece, hp, hcm⟩
  rcases List.mem_map.mp hp with ⟨cl, hcl, hpe⟩
  subst hpe
  exact not_mem_ljust '\n' (rget r cl) _ (h cl hcl) (by decide) hcm

/-- C6: the formatted table is the header line followed by exactly one line
per record, in order, separated by single newlines with nothing after the
last line: splitting the output on the newline character recovers the
header and the rendered rows (provided, as for any line-oriented format,
that no column name or field value contains a newline itself). -/
theorem format_lines_spec (rows : List Record) (cols : List String)
    (hcols : cols ≠ [])
    (hnames : ∀ cl ∈ cols, '\n' ∉ cl.toList)
    (hvals : ∀ r ∈ rows, ∀ cl ∈ cols, '\n' ∉ rget r cl) :
    splitOnCharList '\n' (format_table rows cols) =
      headerLine rows cols :: rows.map (renderRow rows cols) := by
  unfold format_table
  apply splitOnCharList_intercalate
  · simp
  · intro p hp
    rcases List.mem_cons.mp hp with h1 | h1
    · subst h1
      exact newline_not_mem_headerLine rows cols hnames
    · rcases List.mem_map.mp h1 with ⟨r, hr, hpe⟩
      subst hpe
      exact newline_not_mem_renderRow rows cols r (hvals r hr)

theorem format_lines_spec_witness :
    splitOnCharList '\n'
        (format_table [[("HJD", "1.5".toList)], [("HJD", "22.75".toList)]] ["HJD", "MAG"]) =
      headerLine [[("HJD", "1.5".toList)], [("HJD", "22.75".toList)]] ["HJD", "MAG"] ::
        [[("HJD", "1.5".toList)], [("HJD", "22.75".toList)]].map
          (renderRow [[("HJD", "1.5".toList)], [("HJD", "22.75".toList)]] ["HJD", "MAG"]) :=
  format_lines_spec [[("HJD", "1.5".toList)], [("HJD", "22.75".toList)]] ["HJD", "MAG"]
    (by decide) (by decide) (by decide)

theorem ljust_length (s : List Char) (w : Nat) (h : s.length ≤ w) :
    (ljust s w).length = w := by
  simp only [ljust, List.length_append, List.length_replicate]
  omega

theorem slice_flatten_map (g : String → List Char) (w : String → Nat)
    (cols : List String) (hlen : ∀ c ∈ cols, (g c).length ≤ w c) :
    ∀ j, j < cols.length →
      sliceAt ((cols.map (fun c => ljust (g c) (w c))).flatten)
          (((cols.take j).map w).sum) (w (cols.getD j "")) =
        ljust (g (cols.getD j "")) (w (cols.getD j "")) := by
  induction cols with
  | nil => intro j hj; simp at hj
  | cons c0 ct ih =>
    intro j hj
    cases j with
    | zero =>
      simp only [List.take_zero, List.map_nil, List.sum_nil, List.getD_cons_zero,
        List.map_cons, List.flatten_cons]
      unfold sliceAt
      rw [List.drop_zero,
        List.take_left' (ljust_length _ _ (hlen c0 (List.mem_cons_self c0 ct)))]
    | succ i =>
      simp only [List.take_succ_cons, List.map_cons, List.sum_cons, List.getD_cons_succ,
        List.flatten_cons]
      unfold sliceAt
      rw [← List.drop_drop,
        List.drop_left' (ljust_length _ _ (hlen c0 (List.mem_cons_self c0 ct)))]
      exact ih (fun c hc => hlen c (List.mem_cons.mpr (Or.inr hc))) i
        (Nat.lt_of_succ_lt_succ hj)

theorem dropWhile_space_replicate (n : Nat) :
    List.dropWhile isSpaceChar (List.replicate n ' ') = [] := by
  induction n with
  | zero => rfl
  | succ k ih =>
    rw [List.replicate_succ, List.dropWhile_cons, if_pos (by decide)]
    exact ih

theorem rstrip_ljust (s : List Char) (w : Nat) : rstrip (ljust s w) = rstrip s := by
  unfold ljust rstrip
  rw [List.reverse_append, List.reverse_replicate, List.dropWhile_append,
    dropWhile_space_replicate]
  simp

/-- C7: the header line and every data line share the same column
boundaries: slicing a line at the cumulative column widths and trimming
trailing spaces recovers the column name (header) and the field value (data
line), names and values carrying no trailing whitespace themselves.  This
rests on each width exceeding every value it must hold by at least 3. -/
theorem format_slices_spec (rows : List Record) (cols : List String) (j : Nat)
    (hj : j < cols.length)
    (hname : rstrip (cols.getD j "").toList = (cols.getD j "").toList) :
    rstrip (sliceAt (headerLine rows cols) (colOffset rows cols j)
        (widthOf rows (cols.getD j ""))) = (cols.getD j "").toList
    ∧ ∀ r ∈ rows, rstrip (rget r (cols.getD j "")) = rget r (cols.getD j "") →
        rstrip (sliceAt (renderRow rows cols r) (colOffset rows cols j)
            (widthOf rows (cols.getD j ""))) = rget r (cols.getD j "") := by
  constructor
  · have hs := slice_flatten_map (fun c => c.toList) (widthOf rows) cols
      (fun c _ => by
        have h3 := (format_width_spec rows c).2.1
        show c.toList.length ≤ widthOf rows c
        have hl : c.toList.length = c.length := rfl
        omega) j hj
    unfold headerLine colOffset
    rw [hs, rstrip_ljust, hname]
  · intro r hr hv
    have hs := slice_flatten_map (fun c => rget r c) (widthOf rows) cols
      (fun c _ => by
        have h3 := (format_width_spec rows c).1 r hr
        show (rget r c).length ≤ widthOf rows c
        omega) j hj
    unfold renderRow colOffset
    rw [hs, rstrip_ljust, hv]

theorem format_slices_spec_witness :
    1 < (["HJD", "MAG"] : List String).length ∧
    rstrip ((["HJD", "MAG"] : List String).getD 1 "").toList =
      ((["HJD", "MAG"] : List String).getD 1 "").toList ∧
    rstrip (sliceAt (headerLine [[("HJD", "1.5".toList), ("MAG", "12.345".toList)]]
          ["HJD", "MAG"])
        (colOffset [[("HJD", "1.5".toList), ("MAG", "12.345".toList)]] ["HJD", "MAG"] 1)
        (widthOf [[("HJD", "1.5".toList), ("MAG", "12.345".toList)]]
          ((["HJD", "MAG"] : List String).getD 1 ""))) = "MAG".toList :=
  ⟨by decide, by decide,
   (format_slices_spec [[("HJD", "1.5".toList), ("MAG", "12.345".toList)]]
     ["HJD", "MAG"] 1 (by decide) (by decide)).1⟩

end MaxConverter
